import Mathlib

/-!
Verification of the rs-lang compiler middle/back-end against its
natural-language specification.  The definitions below are a shallow
embedding of the Python sources:

* `compiler_block_spilt.py` — basic-block partitioning (`block_split`),
  CFG construction (`build_cfg`), liveness (`live_variable_analysis`),
  and the call-order resolver inside `_split_all_functions`;
* `compiler_aimcodegenerator.py` — `FunctionStackFrame`, `FunctionStack`,
  `MemController.alloc_reg`, and the `param`/`call`/binary-op branches of
  `AimCodeGenerator.quad_to_code`;
* `compiler_error_handler.py` — error codes and fatality classification.

Python values that may be a string, an integer, or `None` are modelled as
`Option Val`; Python exceptions become the `PyErr` error type of an
`Except`; Python `set`s become `Finset`s; insertion-ordered `dict`s become
association lists.
-/

/-- A quadruple operand: a variable name (string) or an integer constant.
A Python `None` field is modelled as `Option.none` at the use site. -/
inductive Val where
  | str (s : String)
  | num (n : Int)
deriving DecidableEq, Repr

/-- `Quadruple` from `compiler_codegenerator.py`: `(op, arg1, arg2, result)`.
Each operand field may be absent (`None` in Python). -/
structure Quadruple where
  op : String
  arg1 : Option Val
  arg2 : Option Val
  result : Option Val
deriving DecidableEq, Repr

/-- An indexed quadruple `(idx, quad)` as stored in the global list. -/
abbrev IQuad := Nat × Quadruple

/-! ## Basic-block partitioning (`BlockController._block_split`) -/

/-- `index_to_pos`: the dict `{inst_idx: pos}` built from the slice,
queried at key `t`.  Python dict semantics: a later duplicate key
overwrites an earlier one, hence the fold keeps the last match. -/
def index_to_pos (quads : List IQuad) (t : Int) : Option Nat :=
  (quads.enum.foldl
    (fun acc pq => if (pq.2.1 : Int) = t then some pq.1 else acc) none)

/-- The jump-target position contributed by quadruple `q`, if any:
`q` must be a `j`/`jnz`, its `result` must be an integer index that is a
key of `index_to_pos` (a string result is never such a key). -/
def jump_target_pos (quads : List IQuad) (q : Quadruple) : Option Nat :=
  if q.op = "j" ∨ q.op = "jnz" then
    match q.result with
    | some (.num t) => index_to_pos quads t
    | _ => none
  else none

/-- Membership in the Python `block_starts` set: position `0`, every
in-slice jump-target position, and the position after a `j`/`jnz` whose
`result` is not `None` (the Python code adds the follower inside the same
`if quad.result is not None` guard). -/
def is_block_start (quads : List IQuad) (pos : Nat) : Bool :=
  pos == 0 ||
  quads.enum.any (fun cpq =>
    (cpq.2.2.op = "j" ∨ cpq.2.2.op = "jnz") ∧ cpq.2.2.result ≠ none ∧
      (jump_target_pos quads cpq.2.2 = some pos ∨
        (pos = cpq.1 + 1 ∧ cpq.1 + 1 < quads.length)))

/-- `sorted(block_starts)`: the set of start positions in increasing
order, realised as a filter of `List.range` (sorted and duplicate-free,
with the same membership as the Python set). -/
def block_starts (quads : List IQuad) : List Nat :=
  (List.range quads.length).filter (is_block_start quads)

/-- The slicing `quads[start:end]` for consecutive start positions,
the final slice running to the end of the list
(`zip(sorted_starts, sorted_starts[1:] + [len(quads)])`). -/
def chunks (quads : List IQuad) : List Nat → List (List IQuad)
  | [] => []
  | [s] => [quads.drop s]
  | s₁ :: s₂ :: rest => (quads.drop s₁).take (s₂ - s₁) :: chunks quads (s₂ :: rest)

/-- `BlockController._block_split`: partition a function's quadruple
slice into basic blocks. -/
def block_split (quads : List IQuad) : List (List IQuad) :=
  if quads.isEmpty then [] else chunks quads (block_starts quads)

/-! Lemmas about the partition. -/

theorem chunks_length (quads : List IQuad) (starts : List Nat) :
    (chunks quads starts).length = starts.length := by
  induction starts with
  | nil => rfl
  | cons s rest ih =>
    cases rest with
    | nil => rfl
    | cons s₂ r₂ => simpa [chunks] using ih

theorem chunks_join (quads : List IQuad) (starts : List Nat)
    (hsort : starts.Pairwise (· ≤ ·)) (hne : starts ≠ []) :
    (chunks quads starts).flatten = quads.drop (starts.headI) := by
  induction starts with
  | nil => exact absurd rfl hne
  | cons s rest ih =>
    cases rest with
    | nil => simp [chunks]
    | cons s₂ r₂ =>
      have hle : s ≤ s₂ := (List.pairwise_cons.mp hsort).1 s₂ (by simp)
      have ih' := ih (List.pairwise_cons.mp hsort).2 (by simp)
      simp only [chunks, List.flatten, List.headI] at ih' ⊢
      rw [ih']
      have hdrop : quads.drop s₂ = (quads.drop s).drop (s₂ - s) := by
        rw [List.drop_drop]
        congr 1
        omega
      rw [hdrop, List.take_append_drop]

theorem block_starts_sorted (quads : List IQuad) :
    (block_starts quads).Pairwise (· ≤ ·) := by
  have h := List.pairwise_lt_range quads.length
  exact (List.Pairwise.filter _ h).imp (fun h => Nat.le_of_lt h)

theorem block_starts_mem (quads : List IQuad) (pos : Nat) :
    pos ∈ block_starts quads ↔ pos < quads.length ∧ is_block_start quads pos := by
  simp [block_starts, List.mem_filter]

theorem zero_mem_block_starts (quads : List IQuad) (h : quads ≠ []) :
    0 ∈ block_starts quads := by
  rw [block_starts_mem]
  constructor
  · exact List.length_pos.mpr h
  · simp [is_block_start]

theorem block_starts_headI (quads : List IQuad) (h : quads ≠ []) :
    (block_starts quads).headI = 0 := by
  have hmem := zero_mem_block_starts quads h
  cases hs : block_starts quads with
  | nil => rw [hs] at hmem; exact absurd hmem (List.not_mem_nil 0)
  | cons a rest =>
    have hsort := block_starts_sorted quads
    rw [hs] at hsort hmem
    rcases List.mem_cons.mp hmem with h0 | h0
    · simp [← h0]
    · have := (List.pairwise_cons.mp hsort).1 0 h0
      simp [Nat.le_zero.mp this]

/-- Concatenating the blocks in index order reconstructs the slice. -/
theorem block_split_join (quads : List IQuad) :
    (block_split quads).flatten = quads := by
  by_cases h : quads = []
  · simp [block_split, h]
  · rw [block_split, if_neg (by simpa using h),
      chunks_join quads _ (block_starts_sorted quads)
        (by
          intro hnil
          exact absurd (zero_mem_block_starts quads h)
            (by rw [hnil]; exact List.not_mem_nil 0)),
      block_starts_headI quads h]
    exact List.drop_zero quads

/-- The leader set as the specification words it: the first instruction,
every in-slice target of a `j`/`jnz`, and every instruction immediately
following a `j`/`jnz`. -/
def spec_leader (quads : List IQuad) (pos : Nat) : Prop :=
  pos = 0 ∨
  (∃ cpq ∈ quads.enum, (cpq.2.2.op = "j" ∨ cpq.2.2.op = "jnz") ∧
    jump_target_pos quads cpq.2.2 = some pos) ∨
  (∃ cpq ∈ quads.enum, (cpq.2.2.op = "j" ∨ cpq.2.2.op = "jnz") ∧
    pos = cpq.1 + 1 ∧ cpq.1 + 1 < quads.length)

theorem is_block_start_iff (quads : List IQuad)
    (hres : ∀ iq ∈ quads, iq.2.op = "j" ∨ iq.2.op = "jnz" → iq.2.result ≠ none)
    (pos : Nat) :
    is_block_start quads pos = true ↔ spec_leader quads pos := by
  unfold is_block_start spec_leader
  simp only [Bool.or_eq_true, beq_iff_eq, List.any_eq_true, decide_eq_true_eq]
  constructor
  · rintro (h0 | ⟨cpq, hmem, hop, _, htgt | hfol⟩)
    · exact Or.inl h0
    · exact Or.inr (Or.inl ⟨cpq, hmem, hop, htgt⟩)
    · exact Or.inr (Or.inr ⟨cpq, hmem, hop, hfol⟩)
  · rintro (h0 | ⟨cpq, hmem, hop, htgt⟩ | ⟨cpq, hmem, hop, hfol⟩)
    · exact Or.inl h0
    · refine Or.inr ⟨cpq, hmem, hop, ?_, Or.inl htgt⟩
      unfold jump_target_pos at htgt
      rw [if_pos hop] at htgt
      cases hr : cpq.2.2.result with
      | none => rw [hr] at htgt; exact absurd htgt (by simp)
      | some v => simp [hr]
    · refine Or.inr ⟨cpq, hmem, hop, ?_, Or.inr hfol⟩
      have hq : cpq.2 ∈ quads := by
        have := List.mem_map_of_mem Prod.snd hmem
        rwa [List.enum_map_snd] at this
      exact hres cpq.2 hq hop

/-- C1 helper facts are elsewhere; this is the C4 claim.  See
`claim_C4_leader_invariant`. -/
theorem block_split_length (quads : List IQuad) :
    (block_split quads).length = (block_starts quads).length := by
  by_cases h : quads = []
  · simp [block_split, block_starts, h]
  · rw [block_split, if_neg (by simpa using h), chunks_length]

/-- C4: for every function quadruple slice whose `j`/`jnz` quadruples all
have resolved (non-`None`) targets, the partitioner's leaders are exactly
the first instruction, the in-slice jump targets, and the instructions
immediately following a jump; with `K` distinct leaders it returns
exactly `K` blocks whose concatenation in index order reconstructs the
original slice, and an empty slice yields no blocks. -/
theorem claim_C4_leader_invariant (quads : List IQuad)
    (hres : ∀ iq ∈ quads, iq.2.op = "j" ∨ iq.2.op = "jnz" → iq.2.result ≠ none) :
    block_split ([] : List IQuad) = [] ∧
    (block_split quads).flatten = quads ∧
    (block_split quads).length = (block_starts quads).length ∧
    ∀ pos < quads.length,
      (pos ∈ block_starts quads ↔ spec_leader quads pos) := by
  refine ⟨rfl, block_split_join quads, block_split_length quads, ?_⟩
  intro pos hpos
  rw [block_starts_mem]
  constructor
  · rintro ⟨-, hstart⟩
    exact (is_block_start_iff quads hres pos).mp hstart
  · intro hspec
    exact ⟨hpos, (is_block_start_iff quads hres pos).mpr hspec⟩

/-- A concrete 4-instruction slice exercising a jump target and a jump
follower. -/
def c4Example : List IQuad :=
  [ (0, ⟨"=", some (.num 1), none, some (.str "x")⟩),
    (1, ⟨"jnz", some (.str "x"), none, some (.num 3)⟩),
    (2, ⟨"=", some (.num 2), none, some (.str "y")⟩),
    (3, ⟨"RETURN", some (.str "y"), none, none⟩) ]

theorem claim_C4_leader_invariant_witness :
    (∀ iq ∈ c4Example, iq.2.op = "j" ∨ iq.2.op = "jnz" → iq.2.result ≠ none) ∧
    (block_split ([] : List IQuad) = [] ∧
      (block_split c4Example).flatten = c4Example ∧
      (block_split c4Example).length = (block_starts c4Example).length ∧
      ∀ pos < c4Example.length,
        (pos ∈ block_starts c4Example ↔ spec_leader c4Example pos)) :=
  ⟨by decide, claim_C4_leader_invariant c4Example (by decide)⟩

/-! ## CFG construction (`BlockController._build_cfg`) -/

/-- The dict `{idx: b_idx}` mapping an instruction index to its block,
queried at key `t` (later duplicates overwrite earlier ones). -/
def idx_to_block (blocks : List (List IQuad)) (t : Int) : Option Nat :=
  blocks.enum.foldl
    (fun acc bb =>
      bb.2.foldl (fun acc iq => if (iq.1 : Int) = t then some bb.1 else acc) acc)
    none

/-- `block[-1]`, the final quadruple of a block.  A partitioned block is
never empty; the dummy value covers the out-of-domain case on which the
Python code would raise `IndexError`. -/
def terminator (block : List IQuad) : Quadruple :=
  ((block.getLast?).map Prod.snd).getD ⟨"", none, none, none⟩

/-- The block containing the jump target of `q`, when `q.result` is an
integer index mapped by `idx_to_block` (a string result is never a key of
the int-keyed dict). -/
def jump_target_block (blocks : List (List IQuad)) (q : Quadruple) : Finset Nat :=
  match q.result with
  | some (.num t) =>
    match idx_to_block blocks t with
    | some b => {b}
    | none => ∅
  | _ => ∅

/-- Successor set of block `i`: `j` goes to its target block; `jnz` goes
to its target block and falls through to `i+1` when that exists; any
block whose successor set is still empty falls through to `i+1` when that
exists. -/
def cfg_successors (blocks : List (List IQuad)) (i : Nat) (block : List IQuad) :
    Finset Nat :=
  let q := terminator block
  let s : Finset Nat :=
    if q.op = "j" ∧ q.result ≠ none then
      jump_target_block blocks q
    else if q.op = "jnz" ∧ q.result ≠ none then
      jump_target_block blocks q ∪
        (if i + 1 < blocks.length then {i + 1} else ∅)
    else ∅
  if s = ∅ ∧ i + 1 < blocks.length then {i + 1} else s

/-- `BlockController._build_cfg`: per-block successor sets. -/
def build_cfg (blocks : List (List IQuad)) : List (Finset Nat) :=
  blocks.enum.map (fun ib => cfg_successors blocks ib.1 ib.2)

theorem build_cfg_getD (blocks : List (List IQuad)) (i : Nat)
    (h : i < blocks.length) :
    (build_cfg blocks).getD i ∅ = cfg_successors blocks i (blocks.getD i []) := by
  have hlen : i < (build_cfg blocks).length := by
    simpa [build_cfg] using h
  rw [List.getD_eq_getElem _ _ hlen, List.getD_eq_getElem _ _ h]
  simp [build_cfg]

/-- C5 counterexample: a `jnz` whose target is the fallthrough block.
The block is `jnz`-terminated, the fallthrough block exists, yet the
successor set has exactly one element, not two as the claim states. -/
def c5CexQuads : List IQuad :=
  [ (0, ⟨"jnz", some (.str "x"), none, some (.num 1)⟩),
    (1, ⟨"RETURN", none, none, none⟩) ]

theorem claim_C5_cfg_totality_counterexample :
    (block_split c5CexQuads).length = 2 ∧
    (terminator ((block_split c5CexQuads).getD 0 [])).op = "jnz" ∧
    0 + 1 < (block_split c5CexQuads).length ∧
    ((build_cfg (block_split c5CexQuads)).getD 0 ∅).card = 1 := by
  decide


/-- If the fallthrough block exists, the successor set is nonempty
(the default rule inserts `i + 1` whenever the primary rules left it
empty). -/
theorem cfg_successors_nonempty (blocks : List (List IQuad)) (i : Nat)
    (block : List IQuad) (h : i + 1 < blocks.length) :
    cfg_successors blocks i block ≠ ∅ := by
  unfold cfg_successors
  dsimp only
  split_ifs with h1 h2 h3 <;> simp_all

/-- The successor set of a `jnz`-terminated block with an in-map target. -/
theorem cfg_successors_jnz (blocks : List (List IQuad)) (i : Nat)
    (block : List IQuad) (t : Int) (tb : Nat)
    (hop : (terminator block).op = "jnz")
    (hres : (terminator block).result = some (.num t))
    (htb : idx_to_block blocks t = some tb) :
    cfg_successors blocks i block =
      insert tb (if i + 1 < blocks.length then {i + 1} else (∅ : Finset Nat)) := by
  have hne : ¬((terminator block).op = "j" ∧ (terminator block).result ≠ none) := by
    rw [hop]; simp
  have hyes : (terminator block).op = "jnz" ∧ (terminator block).result ≠ none := by
    rw [hop, hres]; simp
  have hjtb : jump_target_block blocks (terminator block) = {tb} := by
    unfold jump_target_block
    rw [hres]
    dsimp only
    rw [htb]
  unfold cfg_successors
  dsimp only
  rw [if_neg hne, if_pos hyes, hjtb]
  by_cases hf : i + 1 < blocks.length
  · simp [hf, Finset.union_eq_empty, Finset.insert_eq]
  · simp [hf, Finset.insert_eq]

/-- A block terminated by anything that is not a `j`/`jnz` only gets the
default fallthrough successor. -/
theorem cfg_successors_other (blocks : List (List IQuad)) (i : Nat)
    (block : List IQuad)
    (hop1 : (terminator block).op ≠ "j") (hop2 : (terminator block).op ≠ "jnz") :
    cfg_successors blocks i block =
      if i + 1 < blocks.length then {i + 1} else (∅ : Finset Nat) := by
  have hne1 : ¬((terminator block).op = "j" ∧ (terminator block).result ≠ none) :=
    fun hc => hop1 hc.1
  have hne2 : ¬((terminator block).op = "jnz" ∧ (terminator block).result ≠ none) :=
    fun hc => hop2 hc.1
  unfold cfg_successors
  dsimp only
  rw [if_neg hne1, if_neg hne2]
  split_ifs with h1 <;> simp_all

/-- C5 as amended: every non-last block has at least one successor; a
`jnz`-terminated block's successors are its target block together with
the fallthrough block when that exists — exactly two only when the
fallthrough exists and differs from the target; a `RETURN`-terminated
block that is not last still falls through, and a `RETURN`-terminated
last block has no successors. -/
theorem claim_C5_cfg_totality_amended (blocks : List (List IQuad)) :
    (∀ i, i + 1 < blocks.length → (build_cfg blocks).getD i ∅ ≠ ∅) ∧
    (∀ i t tb, i < blocks.length →
      (terminator (blocks.getD i [])).op = "jnz" →
      (terminator (blocks.getD i [])).result = some (.num t) →
      idx_to_block blocks t = some tb →
      (build_cfg blocks).getD i ∅ =
        insert tb (if i + 1 < blocks.length then {i + 1} else (∅ : Finset Nat)) ∧
      (i + 1 < blocks.length → tb ≠ i + 1 →
        ((build_cfg blocks).getD i ∅).card = 2)) ∧
    (∀ i, i + 1 < blocks.length →
      (terminator (blocks.getD i [])).op = "RETURN" →
      (build_cfg blocks).getD i ∅ = {i + 1}) ∧
    (∀ i, i + 1 = blocks.length →
      (terminator (blocks.getD i [])).op = "RETURN" →
      (build_cfg blocks).getD i ∅ = ∅) := by
  refine ⟨?_, ?_, ?_, ?_⟩
  · intro i hi
    rw [build_cfg_getD blocks i (by omega)]
    exact cfg_successors_nonempty blocks i _ hi
  · intro i t tb hi hop hres htb
    have hmain : (build_cfg blocks).getD i ∅ =
        insert tb (if i + 1 < blocks.length then {i + 1} else (∅ : Finset Nat)) := by
      rw [build_cfg_getD blocks i hi]
      exact cfg_successors_jnz blocks i _ t tb hop hres htb
    refine ⟨hmain, ?_⟩
    intro hfall hne
    rw [hmain, if_pos hfall,
      Finset.card_insert_of_not_mem (by simp [hne]), Finset.card_singleton]
  · intro i hi hop
    rw [build_cfg_getD blocks i (by omega),
      cfg_successors_other blocks i _ (by rw [hop]; simp) (by rw [hop]; simp),
      if_pos hi]
  · intro i hi hop
    rw [build_cfg_getD blocks i (by omega),
      cfg_successors_other blocks i _ (by rw [hop]; simp) (by rw [hop]; simp),
      if_neg (by omega)]

/-- A slice whose `jnz` targets a non-adjacent block, for the amended-C5
witness. -/
def c5ExQuads : List IQuad :=
  [ (0, ⟨"jnz", some (.str "x"), none, some (.num 3)⟩),
    (1, ⟨"=", some (.num 1), none, some (.str "y")⟩),
    (2, ⟨"j", none, none, some (.num 0)⟩),
    (3, ⟨"RETURN", none, none, none⟩) ]

theorem claim_C5_cfg_totality_amended_witness :
    (0 < (block_split c5ExQuads).length ∧
      (terminator ((block_split c5ExQuads).getD 0 [])).op = "jnz" ∧
      (terminator ((block_split c5ExQuads).getD 0 [])).result = some (.num 3) ∧
      idx_to_block (block_split c5ExQuads) 3 = some 2 ∧
      0 + 1 < (block_split c5ExQuads).length ∧ (2 : Nat) ≠ 0 + 1) ∧
    ((build_cfg (block_split c5ExQuads)).getD 0 ∅).card = 2 :=
  ⟨by decide,
    ((claim_C5_cfg_totality_amended (block_split c5ExQuads)).2.1 0 3 2
      (by decide) (by decide) (by decide) (by decide)).2 (by decide) (by decide)⟩

/-! ## Liveness analysis (`BlockController._live_variable_analysis`) -/

/-- The `(used, defined)` pair of one block: variables read before being
written, and variables written, both restricted to `valid_vars` and to
non-empty strings (Python truthiness discards `""`, `None`, and ints). -/
def block_use_def (valid_vars : Finset String) (block : List IQuad) :
    Finset String × Finset String :=
  block.foldl
    (fun acc iq =>
      let q := iq.2
      let read := [q.arg1, q.arg2].foldl
        (fun r o =>
          match o with
          | some (.str s) =>
            if s ≠ "" ∧ s ∈ valid_vars ∧ s ∉ acc.2 then insert s r else r
          | _ => r) acc.1
      let written :=
        match q.result with
        | some (.str s) =>
          if s ≠ "" ∧ s ∈ valid_vars then insert s acc.2 else acc.2
        | _ => acc.2
      (read, written))
    (∅, ∅)

/-- Per-block `used` sets. -/
def used_vars (valid_vars : Finset String) (blocks : List (List IQuad)) :
    List (Finset String) :=
  blocks.map (fun b => (block_use_def valid_vars b).1)

/-- Per-block `defined` sets. -/
def defined_vars (valid_vars : Finset String) (blocks : List (List IQuad)) :
    List (Finset String) :=
  blocks.map (fun b => (block_use_def valid_vars b).2)

/-- `set().union(*(in_sets[succ] for succ in cfg[i]))`. -/
def out_union (ins : List (Finset String)) (succs : List Nat) : Finset String :=
  succs.foldl (fun acc s => acc ∪ ins.getD s ∅) ∅

/-- One body iteration of the `while` loop at block `i`: recompute
`OUT[i]` from the (partially updated) `IN` sets, then `IN[i]`, and
accumulate the change flag. -/
def pass_step (used defs : List (Finset String)) (cfg : List (List Nat))
    (st : List (Finset String) × List (Finset String) × Bool) (i : Nat) :
    List (Finset String) × List (Finset String) × Bool :=
  let ins := st.1
  let outs := st.2.1
  let new_out := out_union ins (cfg.getD i [])
  let new_in := used.getD i ∅ ∪ (new_out \ defs.getD i ∅)
  (ins.set i new_in, outs.set i new_out,
    st.2.2 || decide (ins.getD i ∅ ≠ new_in) || decide (outs.getD i ∅ ≠ new_out))

/-- One full pass of the `while` body: all blocks in reverse index order,
starting from a cleared change flag. -/
def one_pass (used defs : List (Finset String)) (cfg : List (List Nat))
    (n : Nat) (ins outs : List (Finset String)) :
    List (Finset String) × List (Finset String) × Bool :=
  (List.range n).reverse.foldl (pass_step used defs cfg) (ins, outs, false)

/-- The `while changed` loop, with fuel standing in for the (terminating)
unbounded iteration; `none` means the fuel ran out before stabilising. -/
def live_loop (used defs : List (Finset String)) (cfg : List (List Nat))
    (n : Nat) : Nat → List (Finset String) × List (Finset String) →
    Option (List (Finset String) × List (Finset String))
  | 0, _ => none
  | fuel + 1, st =>
    let r := one_pass used defs cfg n st.1 st.2
    if r.2.2 then live_loop used defs cfg n fuel (r.1, r.2.1)
    else some (r.1, r.2.1)

/-- `BlockController._live_variable_analysis`: IN/OUT sets start empty
and are iterated to a fixed point. -/
def live_variable_analysis (blocks : List (List IQuad))
    (cfg : List (List Nat)) (valid_vars : Finset String) (fuel : Nat) :
    Option (List (Finset String) × List (Finset String)) :=
  live_loop (used_vars valid_vars blocks) (defined_vars valid_vars blocks)
    cfg blocks.length fuel
    (blocks.map (fun _ => ∅), blocks.map (fun _ => ∅))

theorem set_getD_self {α : Type} [Inhabited α] (l : List α) (i : Nat) (d : α) :
    l.set i (l.getD i d) = l := by
  induction l generalizing i with
  | nil => simp
  | cons a tl ih =>
    cases i with
    | zero => simp [List.getD]
    | succ j => simpa [List.getD] using ih j

theorem pass_step_flag_true (used defs : List (Finset String))
    (cfg : List (List Nat)) (l : List Nat)
    (ins outs : List (Finset String)) :
    (l.foldl (pass_step used defs cfg) (ins, outs, true)).2.2 = true := by
  induction l generalizing ins outs with
  | nil => rfl
  | cons i tl ih =>
    simpa [pass_step] using ih (ins.set i _) (outs.set i _)

theorem pass_steps_false (used defs : List (Finset String))
    (cfg : List (List Nat)) (l : List Nat)
    (ins outs ins' outs' : List (Finset String))
    (h : l.foldl (pass_step used defs cfg) (ins, outs, false) =
      (ins', outs', false)) :
    ins' = ins ∧ outs' = outs ∧
    ∀ i ∈ l,
      outs.getD i ∅ = out_union ins (cfg.getD i []) ∧
      ins.getD i ∅ = used.getD i ∅ ∪ (outs.getD i ∅ \ defs.getD i ∅) := by
  induction l generalizing ins outs with
  | nil =>
    simp only [List.foldl_nil, Prod.mk.injEq] at h
    exact ⟨h.1.symm, h.2.1.symm, by simp⟩
  | cons i tl ih =>
    rw [List.foldl_cons] at h
    by_cases hch : (pass_step used defs cfg (ins, outs, false) i).2.2 = true
    · exfalso
      have : (pass_step used defs cfg (ins, outs, false) i) =
          ((pass_step used defs cfg (ins, outs, false) i).1,
            (pass_step used defs cfg (ins, outs, false) i).2.1, true) := by
        rw [← hch]
      rw [this] at h
      have hflag := pass_step_flag_true used defs cfg tl
        (pass_step used defs cfg (ins, outs, false) i).1
        (pass_step used defs cfg (ins, outs, false) i).2.1
      rw [h] at hflag
      simp at hflag
    · rw [Bool.not_eq_true] at hch
      have hch' : ins.getD i ∅ = used.getD i ∅ ∪
            (out_union ins (cfg.getD i []) \ defs.getD i ∅) ∧
          outs.getD i ∅ = out_union ins (cfg.getD i []) := by
        have hc := hch
        simp only [pass_step, Bool.false_or, Bool.or_eq_false_iff,
          decide_eq_false_iff_not, not_not] at hc
        exact hc
      obtain ⟨hin, hout⟩ := hch'
      have hstep : pass_step used defs cfg (ins, outs, false) i =
          (ins, outs, false) := by
        unfold pass_step
        simp only
        rw [← hin, ← hout, set_getD_self, set_getD_self]
        simp
      rw [hstep] at h
      obtain ⟨h1, h2, h3⟩ := ih ins outs h
      refine ⟨h1, h2, ?_⟩
      intro j hj
      rcases List.mem_cons.mp hj with hj | hj
      · subst hj
        exact ⟨hout, by rw [hin, hout]⟩
      · exact h3 j hj

theorem one_pass_stable (used defs : List (Finset String))
    (cfg : List (List Nat)) (n : Nat) (ins outs ins' outs' : List (Finset String))
    (h : one_pass used defs cfg n ins outs = (ins', outs', false)) :
    ins' = ins ∧ outs' = outs ∧
    ∀ i < n,
      outs.getD i ∅ = out_union ins (cfg.getD i []) ∧
      ins.getD i ∅ = used.getD i ∅ ∪ (outs.getD i ∅ \ defs.getD i ∅) := by
  obtain ⟨h1, h2, h3⟩ := pass_steps_false used defs cfg _ ins outs ins' outs' h
  exact ⟨h1, h2, fun i hi => h3 i (by simp [hi])⟩

theorem live_loop_some (used defs : List (Finset String))
    (cfg : List (List Nat)) (n : Nat) (fuel : Nat)
    (st : List (Finset String) × List (Finset String))
    (r : List (Finset String) × List (Finset String))
    (h : live_loop used defs cfg n fuel st = some r) :
    one_pass used defs cfg n r.1 r.2 = (r.1, r.2, false) := by
  induction fuel generalizing st with
  | zero => exact absurd h (by simp [live_loop])
  | succ fuel ih =>
    unfold live_loop at h
    by_cases hch : (one_pass used defs cfg n st.1 st.2).2.2 = true
    · rw [if_pos hch] at h
      exact ih _ h
    · rw [if_neg hch] at h
      have hfalse : (one_pass used defs cfg n st.1 st.2) =
          ((one_pass used defs cfg n st.1 st.2).1,
            (one_pass used defs cfg n st.1 st.2).2.1, false) := by
        rw [Bool.not_eq_true] at hch
        rw [← hch]
      obtain ⟨h1, h2, -⟩ := one_pass_stable used defs cfg n st.1 st.2 _ _ hfalse
      have hr : r = (st.1, st.2) := by
        rw [← Option.some_inj.mp h, h1, h2]
      rw [hr]
      rw [h1, h2] at hfalse
      exact hfalse

/-- C6: whenever the liveness loop returns, the returned IN/OUT sets
satisfy `OUT[i] = ⋃ IN[succ]` and `IN[i] = used[i] ∪ (OUT[i] − defined[i])`
for every block, `OUT[i] = ∅` for blocks without successors, and one more
full pass changes nothing (idempotence of the fixed point). -/
theorem claim_C6_liveness_fixed_point (blocks : List (List IQuad))
    (cfg : List (List Nat)) (valid_vars : Finset String) (fuel : Nat)
    (ins outs : List (Finset String))
    (h : live_variable_analysis blocks cfg valid_vars fuel = some (ins, outs)) :
    (∀ i < blocks.length,
      outs.getD i ∅ = out_union ins (cfg.getD i []) ∧
      ins.getD i ∅ = (used_vars valid_vars blocks).getD i ∅ ∪
        (outs.getD i ∅ \ (defined_vars valid_vars blocks).getD i ∅)) ∧
    (∀ i < blocks.length, cfg.getD i [] = [] → outs.getD i ∅ = ∅) ∧
    one_pass (used_vars valid_vars blocks) (defined_vars valid_vars blocks)
      cfg blocks.length ins outs = (ins, outs, false) := by
  have hOne := live_loop_some _ _ cfg blocks.length fuel _ (ins, outs) h
  obtain ⟨-, -, h3⟩ := one_pass_stable _ _ cfg blocks.length ins outs ins outs hOne
  refine ⟨h3, ?_, hOne⟩
  intro i hi hempty
  have := (h3 i hi).1
  rw [hempty] at this
  simpa [out_union] using this

/-- Blocks and CFG of `c5ExQuads`, used to witness the liveness claim. -/
def c6Blocks : List (List IQuad) := block_split c5ExQuads

/-- The successor lists of `c6Blocks` (the CFG of `c5ExQuads`). -/
def c6Cfg : List (List Nat) := [[2, 1], [0], []]

theorem claim_C6_liveness_fixed_point_witness :
    (live_variable_analysis c6Blocks c6Cfg {"x", "y"} 5 =
      some ([{"x"}, {"x"}, ∅], [{"x"}, {"x"}, ∅])) ∧
    ((∀ i < c6Blocks.length,
      ([{"x"}, {"x"}, (∅ : Finset String)]).getD i ∅ =
        out_union [{"x"}, {"x"}, ∅] (c6Cfg.getD i []) ∧
      ([{"x"}, {"x"}, (∅ : Finset String)]).getD i ∅ =
        (used_vars {"x", "y"} c6Blocks).getD i ∅ ∪
        (([{"x"}, {"x"}, (∅ : Finset String)]).getD i ∅ \
          (defined_vars {"x", "y"} c6Blocks).getD i ∅)) ∧
    (∀ i < c6Blocks.length, c6Cfg.getD i [] = [] →
      ([{"x"}, {"x"}, (∅ : Finset String)]).getD i ∅ = ∅) ∧
    one_pass (used_vars {"x", "y"} c6Blocks) (defined_vars {"x", "y"} c6Blocks)
      c6Cfg c6Blocks.length [{"x"}, {"x"}, ∅] [{"x"}, {"x"}, ∅] =
      ([{"x"}, {"x"}, ∅], [{"x"}, {"x"}, ∅], false)) :=
  ⟨by decide,
    claim_C6_liveness_fixed_point c6Blocks c6Cfg {"x", "y"} 5
      [{"x"}, {"x"}, ∅] [{"x"}, {"x"}, ∅] (by decide)⟩

/-! ## Stack frames (`FunctionStackFrame`, `FunctionStack.build_frame`) -/

/-- `FunctionStackFrame`: params are `(name, offset)` pairs, locals are
`(name, offset, is_in_memory)` triples, exactly as the Python lists. -/
structure FunctionStackFrame where
  name : String
  old_sp : Int
  return_addr : Int
  param_num : Nat
  local_num : Nat
  params : List (String × Int)
  local_vars : List (String × Int × Bool)
deriving DecidableEq, Repr

/-- `FunctionStackFrame.size`:
`4 + 4*(param_num+1) + 4*(local_num+1) + 8`. -/
def FunctionStackFrame.size (f : FunctionStackFrame) : Int :=
  4 + 4 * ((f.param_num : Int) + 1) + 4 * ((f.local_num : Int) + 1) + 8

/-- `get_var_offset` scans only `local_vars` (`next(... for name, offset, _
in self.local_vars ...)`); the parameter list is never consulted. -/
def FunctionStackFrame.get_var_offset (f : FunctionStackFrame)
    (varname : String) : Option Int :=
  (f.local_vars.find? (fun nv => nv.1 == varname)).map (fun nv => nv.2.1)

/-- Replace the flag of the first `local_vars` entry named `varname`. -/
def update_memflag : List (String × Int × Bool) → String → Bool →
    List (String × Int × Bool)
  | [], _, _ => []
  | e :: rest, varname, b =>
    if e.1 = varname then (e.1, e.2.1, b) :: rest
    else e :: update_memflag rest varname b

/-- `set_var_memflag` updates only `local_vars`. -/
def FunctionStackFrame.set_var_memflag (f : FunctionStackFrame)
    (varname : String) (b : Bool) : FunctionStackFrame :=
  { f with local_vars := update_memflag f.local_vars varname b }

/-- `if_var_in_memory` scans only `local_vars`, defaulting to `False`. -/
def FunctionStackFrame.if_var_in_memory (f : FunctionStackFrame)
    (varname : String) : Bool :=
  ((f.local_vars.find? (fun nv => nv.1 == varname)).map
    (fun nv => nv.2.2)).getD false

/-- A symbol of a function scope, as `build_frame` distinguishes them:
`ParameterSymbol`, `VariableSymbol`, or anything else (skipped). -/
inductive ScopeSymbol where
  | param (name : String)
  | localVar (name : String)
  | other (name : String)
deriving DecidableEq, Repr

/-- The symbol loop of `FunctionStack.build_frame`, threading
`param_num`, `local_num` and both accumulators (`offset = -4` is folded
into the literals). -/
def build_frame_aux : List ScopeSymbol → Nat → Nat → List (String × Int) →
    List (String × Int × Bool) →
    Nat × Nat × List (String × Int) × List (String × Int × Bool)
  | [], pn, ln, ps, ls => (pn, ln, ps, ls)
  | .param nm :: rest, pn, ln, ps, ls =>
    build_frame_aux rest (pn + 1) ln
      (ps ++ [(nm, -4 * (((pn + 1 : Nat) : Int) + 1) + (-4))]) ls
  | .localVar nm :: rest, pn, ln, ps, ls =>
    build_frame_aux rest pn (ln + 1) ps
      (ls ++ [(nm, -4 * ((pn : Int) + 1) + -4 * (((ln + 1 : Nat) : Int) + 1)
        + (-4), false)])
  | .other _ :: rest, pn, ln, ps, ls => build_frame_aux rest pn ln ps ls

/-- `FunctionStack.build_frame`: build a frame from the function scope's
symbols; `old_sp` is the size of the last frame built, if any. -/
def build_frame (func_name : String) (syms : List ScopeSymbol)
    (frames : List FunctionStackFrame) : FunctionStackFrame :=
  let old_sp := ((frames.getLast?).map (fun f => f.size)).getD 0
  let r := build_frame_aux syms 0 0 [] []
  ⟨func_name, old_sp, 0, r.1, r.2.1, r.2.2.1, r.2.2.2⟩

/-- `FunctionStack.get_frame`: first frame with the given name. -/
def get_frame (frames : List FunctionStackFrame) (name : String) :
    Option FunctionStackFrame :=
  frames.find? (fun f => f.name == name)

/-- The parameter entries produced by the symbol loop when the current
`param_num` is `pn` (each entry uses the incremented count). -/
def param_entries (pn : Nat) : List String → List (String × Int)
  | [] => []
  | nm :: tl =>
    (nm, -4 * (((pn + 1 : Nat) : Int) + 1) + (-4)) :: param_entries (pn + 1) tl

/-- The local entries produced by the symbol loop when the current counts
are `pn` parameters and `ln` locals. -/
def local_entries (pn ln : Nat) : List String → List (String × Int × Bool)
  | [] => []
  | nm :: tl =>
    (nm, -4 * ((pn : Int) + 1) + -4 * (((ln + 1 : Nat) : Int) + 1) + (-4), false) ::
      local_entries pn (ln + 1) tl

theorem build_frame_aux_params (ps : List String) (rest : List ScopeSymbol)
    (pn ln : Nat) (psacc : List (String × Int))
    (lsacc : List (String × Int × Bool)) :
    build_frame_aux (ps.map .param ++ rest) pn ln psacc lsacc =
      build_frame_aux rest (pn + ps.length) ln
        (psacc ++ param_entries pn ps) lsacc := by
  induction ps generalizing pn psacc with
  | nil => simp [param_entries]
  | cons nm tl ih =>
    simp only [List.map_cons, List.cons_append, build_frame_aux,
      List.append_eq, param_entries]
    rw [ih (pn + 1)]
    have hn : pn + 1 + tl.length = pn + (nm :: tl).length := by simp; omega
    rw [hn, List.append_assoc]
    rfl

theorem build_frame_aux_locals (ls : List String) (pn ln : Nat)
    (psacc : List (String × Int)) (lsacc : List (String × Int × Bool)) :
    build_frame_aux (ls.map .localVar) pn ln psacc lsacc =
      (pn, ln + ls.length, psacc, lsacc ++ local_entries pn ln ls) := by
  induction ls generalizing ln lsacc with
  | nil => simp [build_frame_aux, local_entries]
  | cons nm tl ih =>
    simp only [List.map_cons, build_frame_aux, List.append_eq, local_entries]
    rw [ih (ln + 1)]
    have hn : ln + 1 + tl.length = ln + (nm :: tl).length := by simp; omega
    rw [hn, List.append_assoc]
    rfl

theorem param_entries_length (pn : Nat) (ps : List String) :
    (param_entries pn ps).length = ps.length := by
  induction ps generalizing pn with
  | nil => rfl
  | cons nm tl ih => simpa [param_entries] using ih (pn + 1)

theorem local_entries_length (pn ln : Nat) (ls : List String) :
    (local_entries pn ln ls).length = ls.length := by
  induction ls generalizing ln with
  | nil => rfl
  | cons nm tl ih => simpa [local_entries] using ih (ln + 1)

theorem param_entries_getD (pn : Nat) (ps : List String) (k : Nat)
    (hk : k < ps.length) :
    (param_entries pn ps).getD k ("", 0) =
      (ps.getD k "", -4 * (((pn : Int) + (k : Int) + 1) + 1) - 4) := by
  induction ps generalizing pn k with
  | nil => simp at hk
  | cons nm tl ih =>
    cases k with
    | zero =>
      rw [param_entries, List.getD_cons_zero, List.getD_cons_zero]
      simp only [Prod.mk.injEq, true_and, and_true]
      push_cast
      ring
    | succ j =>
      have hj : j < tl.length := by simpa using hk
      rw [param_entries, List.getD_cons_succ, List.getD_cons_succ,
        ih (pn + 1) j hj]
      simp only [Prod.mk.injEq, true_and, and_true]
      push_cast
      ring

theorem local_entries_getD (pn ln : Nat) (ls : List String) (m : Nat)
    (hm : m < ls.length) :
    (local_entries pn ln ls).getD m ("", 0, false) =
      (ls.getD m "",
        -4 * ((pn : Int) + 1) - 4 * (((ln : Int) + (m : Int) + 1) + 1) - 4,
        false) := by
  induction ls generalizing ln m with
  | nil => simp at hm
  | cons nm tl ih =>
    cases m with
    | zero =>
      rw [local_entries, List.getD_cons_zero, List.getD_cons_zero]
      simp only [Prod.mk.injEq, true_and, and_true]
      push_cast
      ring
    | succ j =>
      have hj : j < tl.length := by simpa using hm
      rw [local_entries, List.getD_cons_succ, List.getD_cons_succ,
        ih (ln + 1) j hj]
      simp only [Prod.mk.injEq, true_and, and_true]
      push_cast
      ring

theorem param_entries_offsets (pn : Nat) (ps : List String) :
    (param_entries pn ps).map Prod.snd =
      (List.range ps.length).map
        (fun (k : Nat) => -4 * ((pn : Int) + (k : Int) + 2) - 4) := by
  induction ps generalizing pn with
  | nil => rfl
  | cons nm tl ih =>
    simp only [param_entries, List.map_cons, List.length_cons,
      List.range_succ_eq_map, List.map_map]
    rw [List.cons.injEq]
    constructor
    · push_cast
      ring
    · rw [ih (pn + 1)]
      apply List.map_congr_left
      intro k _
      simp only [Function.comp]
      push_cast
      ring

theorem local_entries_offsets (pn ln : Nat) (ls : List String) :
    (local_entries pn ln ls).map (fun e => e.2.1) =
      (List.range ls.length).map
        (fun (m : Nat) => -4 * ((pn : Int) + 1) - 4 * ((ln : Int) + (m : Int) + 2) - 4) := by
  induction ls generalizing ln with
  | nil => rfl
  | cons nm tl ih =>
    simp only [local_entries, List.map_cons, List.length_cons,
      List.range_succ_eq_map, List.map_map]
    rw [List.cons.injEq]
    constructor
    · push_cast
      ring
    · rw [ih (ln + 1)]
      apply List.map_congr_left
      intro m _
      simp only [Function.comp]
      push_cast
      ring

/-- C7: a frame built from a scope listing `P` parameters followed by `L`
locals gives the `k`-th parameter (1-based) offset `-4*(k+1) - 4`, the
`m`-th local offset `-4*(P+1) - 4*(m+1) - 4`, and no two slots among the
parameter and local slots share an offset. -/
theorem claim_C7_frame_offsets (fn : String) (ps ls : List String)
    (frames : List FunctionStackFrame) (syms : List ScopeSymbol)
    (hsyms : syms = ps.map .param ++ ls.map .localVar) :
    (build_frame fn syms frames).param_num = ps.length ∧
    (build_frame fn syms frames).local_num = ls.length ∧
    (∀ k < ps.length, (build_frame fn syms frames).params.getD k ("", 0) =
      (ps.getD k "", -4 * (((k : Int) + 1) + 1) - 4)) ∧
    (∀ m < ls.length,
      (build_frame fn syms frames).local_vars.getD m ("", 0, false) =
      (ls.getD m "",
        -4 * ((ps.length : Int) + 1) - 4 * (((m : Int) + 1) + 1) - 4, false)) ∧
    ((build_frame fn syms frames).params.map Prod.snd ++
      (build_frame fn syms frames).local_vars.map (fun e => e.2.1)).Nodup := by
  subst hsyms
  have hr : build_frame_aux (ps.map .param ++ ls.map .localVar) 0 0 [] [] =
      (ps.length, ls.length, param_entries 0 ps,
        local_entries ps.length 0 ls) := by
    rw [build_frame_aux_params, build_frame_aux_locals]
    simp
  have hparams : (build_frame fn (ps.map .param ++ ls.map .localVar)
      frames).params = param_entries 0 ps := by
    unfold build_frame
    rw [hr]
  have hlocals : (build_frame fn (ps.map .param ++ ls.map .localVar)
      frames).local_vars = local_entries ps.length 0 ls := by
    unfold build_frame
    rw [hr]
  have hpn : (build_frame fn (ps.map .param ++ ls.map .localVar)
      frames).param_num = ps.length := by
    unfold build_frame
    rw [hr]
  have hln : (build_frame fn (ps.map .param ++ ls.map .localVar)
      frames).local_num = ls.length := by
    unfold build_frame
    rw [hr]
  refine ⟨hpn, hln, ?_, ?_, ?_⟩
  · intro k hk
    rw [hparams, param_entries_getD 0 ps k hk]
    simp only [Prod.mk.injEq, true_and, and_true]
    push_cast
    ring
  · intro m hm
    rw [hlocals, local_entries_getD ps.length 0 ls m hm]
    simp only [Prod.mk.injEq, true_and, and_true]
    push_cast
    ring
  · rw [hparams, hlocals, param_entries_offsets, local_entries_offsets,
      List.nodup_append]
    refine ⟨?_, ?_, ?_⟩
    · refine List.Nodup.map ?_ (List.nodup_range _)
      intro a b hab
      dsimp only at hab
      have hab' : (a : Int) = b := by linarith
      exact_mod_cast hab'
    · refine List.Nodup.map ?_ (List.nodup_range _)
      intro a b hab
      dsimp only at hab
      have hab' : (a : Int) = b := by linarith
      exact_mod_cast hab'
    · intro x hx hx'
      simp only [List.mem_map, List.mem_range] at hx hx'
      obtain ⟨k, hk, hkx⟩ := hx
      obtain ⟨m, hm, hmx⟩ := hx'
      rw [← hkx] at hmx
      have hkI : (k : Int) < ps.length := by exact_mod_cast hk
      have hmI : (0 : Int) ≤ (m : Int) := Int.ofNat_nonneg m
      linarith

/-- Concrete scope for the C7 witness: parameters `a`, `b`, local `x`. -/
def c7Syms : List ScopeSymbol :=
  [.param "a", .param "b", .localVar "x"]

theorem claim_C7_frame_offsets_witness :
    (c7Syms = (["a", "b"] : List String).map .param ++
      (["x"] : List String).map .localVar) ∧
    ((build_frame "f" c7Syms []).param_num = 2 ∧
      (build_frame "f" c7Syms []).local_num = 1 ∧
      (∀ k < (["a", "b"] : List String).length,
        (build_frame "f" c7Syms []).params.getD k ("", 0) =
        ((["a", "b"] : List String).getD k "",
          -4 * (((k : Int) + 1) + 1) - 4)) ∧
      (∀ m < (["x"] : List String).length,
        (build_frame "f" c7Syms []).local_vars.getD m ("", 0, false) =
        ((["x"] : List String).getD m "",
          -4 * (((["a", "b"] : List String).length : Int) + 1) -
            4 * (((m : Int) + 1) + 1) - 4, false)) ∧
      ((build_frame "f" c7Syms []).params.map Prod.snd ++
        (build_frame "f" c7Syms []).local_vars.map (fun e => e.2.1)).Nodup) :=
  ⟨by decide,
    (claim_C7_frame_offsets "f" ["a", "b"] ["x"] [] c7Syms (by decide)).imp
      id (fun h => h.imp id (fun h => h.imp
        (fun h3 k hk => h3 k hk) (fun h => h)))⟩

/-! ## Register allocation (`MemController`) -/

/-- Python string `<`: lexicographic comparison by code point. -/
def py_char_list_lt : List Char → List Char → Bool
  | [], [] => false
  | [], _ :: _ => true
  | _ :: _, [] => false
  | c :: cs, d :: ds =>
    if c.val < d.val then true
    else if d.val < c.val then false
    else py_char_list_lt cs ds

def py_str_lt (a b : String) : Bool := py_char_list_lt a.data b.data

/-- A use position `(function, block index, quad index)`. -/
abbrev Pos := String × Nat × Nat

/-- Python `<` on position triples (lexicographic). -/
def py_pos_lt (p q : Pos) : Bool :=
  py_str_lt p.1 q.1 ||
  (p.1 == q.1 && (p.2.1 < q.2.1 || (p.2.1 == q.2.1 && p.2.2 < q.2.2)))

def py_pos_gt (p q : Pos) : Bool := py_pos_lt q p

def py_pos_ge (p q : Pos) : Bool := py_pos_lt q p || p == q

/-- The fixed register pools of `MemController.__init__`. -/
def TEMP_REGS : List String := (List.range 10).map (fun i => "$t" ++ toString i)

def SAVE_REGS : List String := (List.range 8).map (fun i => "$s" ++ toString i)

def ARG_REGS : List String := (List.range 4).map (fun i => "$a" ++ toString i)

def RET_REGS : List String := ["$v0", "$v1"]

/-- `varregs = TEMP_REGS + SAVE_REGS`; `valregs` is an unmutated copy of
this list, so both are this constant. -/
def varregs : List String := TEMP_REGS ++ SAVE_REGS

def pararegs : List String := ARG_REGS

def retregs : List String := RET_REGS

def spreg : String := "$sp"

def rareg : String := "$ra"

/-- One emitted assembly line, with the trailing `#`-comment stripped
(the specification declares comments semantically insignificant); a line
that is only a comment becomes `Instr.comment`. -/
inductive Instr where
  | comment
  | li (reg : String) (imm : Int)
  | add (dst src1 src2 : String)
  | rtype (mnemonic dst src1 src2 : String)
  | sw (reg : String) (offset : Int) (base : String)
  | lw (reg : String) (offset : Int) (base : String)
  | addi (dst src : String) (imm : Int)
  | jal (label : String)
  | jr (reg : String)
  | jlabel (label : String)
  | bne (r1 r2 : String) (label : String)
  | syscall
deriving DecidableEq, Repr

/-- The mutable allocator state: the binding dict `rvalues` (insertion
ordered; second key component is a variable name or, for `param` keys, a
constant), the occupied set, the use-position dict, and the frames of the
attached `FunctionStack`. -/
structure MemController where
  rvalues : List ((String × Val) × String)
  usedregs : Finset String
  var_use_pos : List (String × List Pos)
  function_stack : List FunctionStackFrame
deriving DecidableEq

/-- `d[k]` with `.get` semantics (first — and only — matching key). -/
def dict_get (d : List ((String × Val) × String)) (k : String × Val) :
    Option String :=
  (d.find? (fun kv => kv.1 == k)).map (fun kv => kv.2)

/-- `d[k] = v`: overwrite in place, or append a new key. -/
def dict_insert (d : List ((String × Val) × String)) (k : String × Val)
    (v : String) : List ((String × Val) × String) :=
  if d.any (fun kv => kv.1 == k) then
    d.map (fun kv => if kv.1 == k then (k, v) else kv)
  else d ++ [(k, v)]

/-- `del d[k]`. -/
def dict_remove (d : List ((String × Val) × String)) (k : String × Val) :
    List ((String × Val) × String) :=
  d.filter (fun kv => !(kv.1 == k))

/-- `self.var_use_pos.get(var, [])`. -/
def uses_get (u : List (String × List Pos)) (v : String) : List Pos :=
  ((u.find? (fun kv => kv.1 == v)).map (fun kv => kv.2)).getD []

/-- `MemController.get_live_vars_after`: register-resident variables of
the current function (other than `$ret_reg`) with a use strictly after
`cur`. -/
def get_live_vars_after (mc : MemController) (cur : Pos) : List String :=
  mc.var_use_pos.filterMap (fun vu =>
    if vu.1 ≠ "$ret_reg" ∧
        (dict_get mc.rvalues (cur.1, Val.str vu.1)).isSome ∧
        vu.2.any (fun p => p.1 == cur.1 && py_pos_gt p cur)
    then some vu.1 else none)

/-- The farthest-next-use victim scan of `alloc_reg` step 3: a binding
with no use at or after `cur` wins immediately (`break`); otherwise the
binding with the farthest first use at or after `cur` (first seen wins
ties). -/
def pick_victim_go (var_use_pos : List (String × List Pos)) (cur : Pos) :
    List ((String × Val) × String) → Option ((String × Val) × Pos) →
    Option (String × Val)
  | [], best => best.map (fun b => b.1)
  | kv :: rest, best =>
    let use_list :=
      match kv.1.2 with
      | .str s => uses_get var_use_pos s
      | .num _ => []
    match use_list.find? (fun p => py_pos_ge p cur) with
    | none => some kv.1
    | some nu =>
      match best with
      | none => pick_victim_go var_use_pos cur rest (some (kv.1, nu))
      | some bf =>
        if py_pos_gt nu bf.2 then
          pick_victim_go var_use_pos cur rest (some (kv.1, nu))
        else pick_victim_go var_use_pos cur rest best

/-- Mutate the first frame named `fname` (what
`get_frame(...).set_var_memflag(...)` does to the stack's frame list). -/
def stack_set_memflag (frames : List FunctionStackFrame)
    (fname varname : String) (b : Bool) : List FunctionStackFrame :=
  match frames with
  | [] => []
  | f :: rest =>
    if f.name = fname then f.set_var_memflag varname b :: rest
    else f :: stack_set_memflag rest fname varname b

/-- `MemController.alloc_reg`.  Returns the register, the new state and
the (possibly spill-extended) code list; `none` models the `KeyError`
the Python code would raise when the pool is exhausted and the binding
table is empty. -/
def alloc_reg (mc : MemController) (varname : String) (cur : Pos)
    (code : List Instr) : Option (String × MemController × List Instr) :=
  let key : String × Val := (cur.1, .str varname)
  match dict_get mc.rvalues key with
  | some reg => some (reg, mc, code)
  | none =>
    match varregs.filter (fun r => decide (r ∉ mc.usedregs)) with
    | reg :: _ =>
      some (reg,
        { mc with rvalues := dict_insert mc.rvalues key reg,
                  usedregs := insert reg mc.usedregs }, code)
    | [] =>
      match pick_victim_go mc.var_use_pos cur mc.rvalues none with
      | none => none
      | some victim =>
        match dict_get mc.rvalues victim with
        | none => none
        | some reg =>
          let do_spill : Bool :=
            victim.1 == cur.1 &&
              (match victim.2 with
               | .str s => decide (s ∈ get_live_vars_after mc cur)
               | .num _ => false)
          let offsetOpt : Option Int :=
            match get_frame mc.function_stack victim.1 with
            | some fr =>
              match victim.2 with
              | .str s => fr.get_var_offset s
              | .num _ => none
            | none => none
          let spilled := do_spill && offsetOpt.isSome
          let new_stack :=
            if spilled then
              match victim.2 with
              | .str s => stack_set_memflag mc.function_stack victim.1 s true
              | .num _ => mc.function_stack
            else mc.function_stack
          let code' :=
            match spilled, offsetOpt with
            | true, some off => code ++ [Instr.sw reg off spreg]
            | _, _ => code
          some (reg,
            { mc with
                rvalues := dict_insert (dict_remove mc.rvalues victim) key reg,
                usedregs := insert reg (mc.usedregs.erase reg),
                function_stack := new_stack },
            code')

theorem get_var_offset_of_not_local (fr : FunctionStackFrame) (v : String)
    (hv : v ∉ fr.local_vars.map (fun l => l.1)) :
    fr.get_var_offset v = none := by
  unfold FunctionStackFrame.get_var_offset
  rw [List.find?_eq_none.mpr]
  · rfl
  · intro x hx
    simp only [beq_iff_eq]
    intro hx1
    exact hv (hx1 ▸ List.mem_map_of_mem (fun l => l.1) hx)

theorem if_var_in_memory_of_not_local (fr : FunctionStackFrame) (v : String)
    (hv : v ∉ fr.local_vars.map (fun l => l.1)) :
    fr.if_var_in_memory v = false := by
  unfold FunctionStackFrame.if_var_in_memory
  rw [List.find?_eq_none.mpr]
  · rfl
  · intro x hx
    simp only [beq_iff_eq]
    intro hx1
    exact hv (hx1 ▸ List.mem_map_of_mem (fun l => l.1) hx)

theorem update_memflag_of_not_mem (l : List (String × Int × Bool))
    (v : String) (b : Bool) (hv : v ∉ l.map (fun e => e.1)) :
    update_memflag l v b = l := by
  induction l with
  | nil => rfl
  | cons e rest ih =>
    simp only [List.map_cons, List.mem_cons, not_or] at hv
    rw [update_memflag, if_neg (fun hc => hv.1 hc.symm), ih hv.2]

theorem set_var_memflag_of_not_local (fr : FunctionStackFrame) (v : String)
    (b : Bool) (hv : v ∉ fr.local_vars.map (fun l => l.1)) :
    fr.set_var_memflag v b = fr := by
  unfold FunctionStackFrame.set_var_memflag
  rw [update_memflag_of_not_mem fr.local_vars v b hv]

/-- C9: frame lookups (`get_var_offset`, `if_var_in_memory`,
`set_var_memflag`) consult only the local-variable list, so a parameter
name (disjoint from local names within one frame) yields no offset, is
never flagged in-memory, and `alloc_reg` emits no spill store when the
selected victim is a parameter of the current function. -/
theorem claim_C9_param_slots_invisible (fr : FunctionStackFrame)
    (mc : MemController) (varname v : String) (cur : Pos) (code : List Instr)
    (hdisj : ∀ e ∈ fr.params, e.1 ∉ fr.local_vars.map (fun l => l.1))
    (h1 : get_frame mc.function_stack cur.1 = some fr)
    (hvic : pick_victim_go mc.var_use_pos cur mc.rvalues none =
      some (cur.1, .str v))
    (hvp : v ∈ fr.params.map Prod.fst) :
    (∀ e ∈ fr.params, fr.get_var_offset e.1 = none) ∧
    (∀ e ∈ fr.params, fr.if_var_in_memory e.1 = false) ∧
    (∀ e ∈ fr.params, ∀ b, fr.set_var_memflag e.1 b = fr) ∧
    (∀ r, alloc_reg mc varname cur code = some r → r.2.2 = code) := by
  have hvnl : v ∉ fr.local_vars.map (fun l => l.1) := by
    obtain ⟨e, he, hev⟩ := List.mem_map.mp hvp
    exact hev ▸ hdisj e he
  refine ⟨fun e he => get_var_offset_of_not_local fr e.1 (hdisj e he),
    fun e he => if_var_in_memory_of_not_local fr e.1 (hdisj e he),
    fun e he b => set_var_memflag_of_not_local fr e.1 b (hdisj e he), ?_⟩
  intro r h
  unfold alloc_reg at h
  dsimp only at h
  split at h
  · obtain rfl := Option.some_inj.mp h
    rfl
  · split at h
    · obtain rfl := Option.some_inj.mp h
      rfl
    · rw [hvic] at h
      split at h
      · exact absurd h (by simp)
      · rename_i victim hveq
        obtain rfl : victim = (cur.1, Val.str v) := (Option.some_inj.mp hveq).symm
        split at h
        · exact absurd h (by simp)
        · dsimp only at h
          rw [h1] at h
          dsimp only at h
          rw [get_var_offset_of_not_local fr v hvnl] at h
          simp only [Option.isSome_none, Bool.and_false, Bool.false_eq_true,
            if_false] at h
          obtain rfl := Option.some_inj.mp h
          rfl

/-- A one-parameter frame for the C9 witness. -/
def c9Frame : FunctionStackFrame := build_frame "f" [.param "a"] []

/-- Allocator state whose victim scan selects the parameter `a` of the
current function `f`. -/
def c9Mem : MemController :=
  { rvalues := [(("f", .str "a"), "$t0")], usedregs := ∅,
    var_use_pos := [], function_stack := [build_frame "f" [.param "a"] []] }

theorem claim_C9_param_slots_invisible_witness :
    ((∀ e ∈ c9Frame.params, e.1 ∉ c9Frame.local_vars.map (fun l => l.1)) ∧
      get_frame c9Mem.function_stack ("f", 0, 0).1 = some c9Frame ∧
      pick_victim_go c9Mem.var_use_pos ("f", 0, 0) c9Mem.rvalues none =
        some (("f", 0, 0).1, .str "a") ∧
      "a" ∈ c9Frame.params.map Prod.fst) ∧
    ((∀ e ∈ c9Frame.params, c9Frame.get_var_offset e.1 = none) ∧
      (∀ e ∈ c9Frame.params, c9Frame.if_var_in_memory e.1 = false) ∧
      (∀ e ∈ c9Frame.params, ∀ b, c9Frame.set_var_memflag e.1 b = c9Frame) ∧
      (∀ r, alloc_reg c9Mem "b" ("f", 0, 0) [] = some r → r.2.2 = [])) :=
  ⟨⟨by decide, by decide, by decide, by decide⟩,
    claim_C9_param_slots_invisible c9Frame c9Mem "b" "a" ("f", 0, 0) []
      (by decide) (by decide) (by decide) (by decide)⟩

/-- State with a rebased parameter binding `("f","a") ↦ $a0`, as the
callee prologue produces after a `param`/`call` sequence. -/
def c10Mem : MemController :=
  { rvalues := [(("f", .str "a"), "$a0")], usedregs := ∅,
    var_use_pos := [], function_stack := [] }

/-- C10 counterexample: `alloc_reg` returns the argument register `$a0`
recorded in the binding table, which is outside the `$t0–$t9 ∪ $s0–$s7`
pool. -/
theorem claim_C10_alloc_pool_counterexample :
    (alloc_reg c10Mem "a" ("f", 0, 0) []).map (fun r => r.1) = some "$a0" ∧
    "$a0" ∉ varregs ∧
    (("f", Val.str "a"), "$a0") ∈ c10Mem.rvalues := by
  decide

theorem dict_get_mem (d : List ((String × Val) × String)) (k : String × Val)
    (v : String) (h : dict_get d k = some v) :
    v ∈ d.map (fun kv => kv.2) := by
  unfold dict_get at h
  obtain ⟨kv, hf, hv⟩ := Option.map_eq_some'.mp h
  exact hv ▸ List.mem_map_of_mem (fun kv => kv.2) (List.mem_of_find?_eq_some hf)

/-- C10 as amended: `alloc_reg` returns either a register of the
`$t`/`$s` variable pool (free-pool path) or a register already recorded
in the binding table (already-bound and eviction paths) — in particular
an argument register recorded by a `param` binding can be handed out. -/
theorem claim_C10_alloc_reg_range_amended (mc : MemController)
    (varname : String) (cur : Pos) (code : List Instr)
    (r : String × MemController × List Instr)
    (h : alloc_reg mc varname cur code = some r) :
    r.1 ∈ varregs ∨ r.1 ∈ mc.rvalues.map (fun kv => kv.2) := by
  unfold alloc_reg at h
  dsimp only at h
  split at h
  · rename_i reg hreg
    obtain rfl := Option.some_inj.mp h
    exact Or.inr (dict_get_mem _ _ _ hreg)
  · split at h
    · rename_i reg rest hfil
      obtain rfl := Option.some_inj.mp h
      have hmem : reg ∈ varregs.filter (fun r => decide (r ∉ mc.usedregs)) := by
        rw [hfil]
        exact List.mem_cons_self _ _
      exact Or.inl (List.mem_of_mem_filter hmem)
    · split at h
      · exact absurd h (by simp)
      · split at h
        · exact absurd h (by simp)
        · rename_i reg hreg
          obtain rfl := Option.some_inj.mp h
          exact Or.inr (dict_get_mem _ _ _ hreg)

theorem claim_C10_alloc_reg_range_amended_witness :
    (alloc_reg c10Mem "a" ("f", 0, 0) [] = some ("$a0", c10Mem, [])) ∧
    ("$a0" ∈ varregs ∨ "$a0" ∈ c10Mem.rvalues.map (fun kv => kv.2)) :=
  ⟨by decide,
    claim_C10_alloc_reg_range_amended c10Mem "a" ("f", 0, 0) []
      ("$a0", c10Mem, []) (by decide)⟩

/-! ## Error model (`compiler_error_handler.py`) and emitter branches -/

/-- Error codes (`ErrorCode`, values as in the enum). -/
def GENERAL_ERROR : Nat := 0x0001

def INVALID_PARAM_FORMAT : Nat := 0x1002

def DIVISION_BY_ZERO : Nat := 0x4001

def PARAM_LIMIT : Nat := 0x5001

/-- `ErrorCode.is_fatal`: everything except the `0x5xxx` limitation
class. -/
def is_fatal (code : Nat) : Bool := (Nat.land code 0xF000) != 0x5000

/-- Python exceptions the emitter can raise.  `errorException` carries
the machine-readable code, message, and optional fix suggestion of
`ErrorException`; the bare constructors model built-in exceptions
(`AttributeError` from the nonexistent `ErrorCode.InvalidParamRegisterFormat`
member, `TypeError` from iterating a non-string, `KeyError` from an
empty binding table). -/
inductive PyErr where
  | valueError (msg : String)
  | typeError
  | attributeError
  | keyError
  | errorException (error_code : Nat) (message : String)
      (fix_suggestion : Option String)
deriving DecidableEq, Repr

deriving instance DecidableEq for Except

/-- How Python's f-string renders an operand. -/
def py_repr : Option Val → String
  | none => "None"
  | some (.str s) => s
  | some (.num n) => toString n

/-- `next((int(c) for c in result if c.isdigit()), None)`: the first
digit character of the string, as a number. -/
def first_digit (s : String) : Option Nat :=
  (s.data.find? (fun c => c.isDigit)).map (fun c => c.toNat - '0'.toNat)

/-- The `param` branch of `AimCodeGenerator.quad_to_code`. -/
def emit_param (mc : MemController) (arg1 result : Option Val) (cur : Pos) :
    Except PyErr (List Instr × MemController) :=
  match result with
  | some (.str s) =>
    match first_digit s with
    | none => .error .attributeError
    | some k =>
      if k < 1 then .error .attributeError
      else if k > 4 then
        .error (.errorException PARAM_LIMIT
          s!"参数寄存器 {s} 超出范围 (当前仅支持至多4个参数传递)" none)
      else
        let target_reg := pararegs.getD (k - 1) ""
        match arg1 with
        | some (.str v) =>
          match alloc_reg mc v cur [] with
          | none => .error .keyError
          | some r =>
            let key : String × Val := ("param" ++ toString k, Val.str v)
            .ok (r.2.2 ++ [.add target_reg r.1 "$zero"],
              { r.2.1 with
                  rvalues := dict_insert r.2.1.rvalues key target_reg })
        | some (.num n) =>
          let key : String × Val := ("param" ++ toString k, Val.num n)
          .ok ([.li target_reg n],
            { mc with rvalues := dict_insert mc.rvalues key target_reg })
        | none =>
          .error (.errorException GENERAL_ERROR
            s!"无效的参数类型: {py_repr arg1}" (some "参数只能是变量名或立即数"))
  | _ => .error .typeError

/-- The `call` branch of `AimCodeGenerator.quad_to_code`: protect the
still-live caller variables that have a frame slot, push down the stack
pointer by the *caller's* frame size, save `$ra`, `jal`, restore `$ra`,
restore the stack pointer, reload the protected variables. -/
def emit_call (mc : MemController) (arg1 : Option Val) (cur : Pos) :
    List Instr :=
  let func_name := cur.1
  let frame := get_frame mc.function_stack func_name
  let live_vars := get_live_vars_after mc cur
  let saves := live_vars.filterMap (fun v =>
    match frame with
    | some fr =>
      (fr.get_var_offset v).map (fun off =>
        Instr.sw ((dict_get mc.rvalues (func_name, .str v)).getD "None")
          off spreg)
    | none => none)
  let mid :=
    match frame with
    | some fr =>
      [Instr.sw spreg (-(fr.size)) spreg,
        Instr.addi spreg spreg (-(fr.size)),
        Instr.sw rareg (-4) spreg]
    | none => []
  let restores :=
    match frame with
    | some fr =>
      [Instr.addi spreg spreg fr.size] ++
        live_vars.filterMap (fun v =>
          (fr.get_var_offset v).map (fun off =>
            Instr.lw ((dict_get mc.rvalues (func_name, .str v)).getD "None")
              off spreg))
    | none => []
  [Instr.comment] ++ saves ++ mid ++
    [Instr.jal (py_repr arg1), Instr.lw rareg (-4) spreg] ++ restores

/-- The `/` instance of the binary-operator branch of `quad_to_code`
(`op_info['/']`: `div`, floor-division folding, zero check). -/
def emit_div (mc : MemController) (arg1 arg2 result : Option Val)
    (cur : Pos) : Except PyErr (List Instr × MemController) :=
  match result with
  | some (.str res) =>
    match alloc_reg mc res cur [] with
    | none => .error .keyError
    | some r0 =>
      let result_reg := r0.1
      let mc1 := r0.2.1
      let code1 := r0.2.2
      match arg1, arg2 with
      | some (.num a), some (.num b) =>
        if b = 0 then .error (.valueError "Division by zero")
        else .ok (code1 ++ [.li result_reg (Int.fdiv a b)], mc1)
      | some (.str v), some (.num c) =>
        if c = 0 then .error (.valueError "除0异常: 除数不能为0")
        else
          match alloc_reg mc1 v cur code1 with
          | none => .error .keyError
          | some r1 =>
            let frame := get_frame r1.2.1.function_stack cur.1
            let load :=
              match frame with
              | some fr =>
                if fr.if_var_in_memory v then
                  [Instr.lw r1.1 ((fr.get_var_offset v).getD 0) spreg]
                else []
              | none => []
            .ok (r1.2.2 ++ load ++
              [Instr.li result_reg c,
                Instr.rtype "div" result_reg r1.1 result_reg], r1.2.1)
      | some (.num c), some (.str v) =>
        match alloc_reg mc1 v cur code1 with
        | none => .error .keyError
        | some r1 =>
          let frame := get_frame r1.2.1.function_stack cur.1
          let load :=
            match frame with
            | some fr =>
              if fr.if_var_in_memory v then
                [Instr.lw r1.1 ((fr.get_var_offset v).getD 0) spreg]
              else []
            | none => []
          .ok (r1.2.2 ++ load ++
            [Instr.li result_reg c,
              Instr.rtype "div" result_reg result_reg r1.1], r1.2.1)
      | some (.str v1), some (.str v2) =>
        match alloc_reg mc1 v1 cur code1 with
        | none => .error .keyError
        | some r1 =>
          match alloc_reg r1.2.1 v2 cur r1.2.2 with
          | none => .error .keyError
          | some r2 =>
            let frame := get_frame r2.2.1.function_stack cur.1
            let loads :=
              ([(v1, r1.1), (v2, r2.1)].filterMap (fun vr =>
                match frame with
                | some fr =>
                  if fr.if_var_in_memory vr.1 then
                    some (Instr.lw vr.2 ((fr.get_var_offset vr.1).getD 0) spreg)
                  else none
                | none => none))
            .ok (r2.2.2 ++ loads ++
              [Instr.rtype "div" result_reg r1.1 r2.1], r2.2.1)
      | _, _ =>
        .error (.valueError
          s!"Unsupported operands for /: {py_repr arg1}, {py_repr arg2}")
  | _ => .error .keyError

/-! ## Claims about the emitter branches -/

/-- An allocator state with no bindings and no frames. -/
def emptyMem : MemController :=
  { rvalues := [], usedregs := ∅, var_use_pos := [], function_stack := [] }

/-- Modelled from the claim's words: the parameter index *encoded* in a
`param_N` (or `paramN`) result operand is the full number `N`, not just
its first digit. -/
def spec_param_index (s : String) : Option Nat :=
  match s.data with
  | 'p' :: 'a' :: 'r' :: 'a' :: 'm' :: rest =>
    let digits :=
      match rest with
      | '_' :: r => r
      | r => r
    if digits ≠ [] ∧ digits.all Char.isDigit then
      some (digits.foldl (fun a c => a * 10 + (c.toNat - '0'.toNat)) 0)
    else none
  | _ => none

/-- C3 counterexample: the quadruple `param ... , param_12` encodes the
out-of-range index 12, but the code parses only the first digit, treats
it as parameter 1, and emits a move into `$a0` with no error at all. -/
theorem claim_C3_param_range_counterexample :
    spec_param_index "param_12" = some 12 ∧
    ¬(1 ≤ (12 : Nat) ∧ (12 : Nat) ≤ 4) ∧
    emit_param emptyMem (some (.num 7)) (some (.str "param_12"))
        ("main", 0, 0) =
      .ok ([Instr.li "$a0" 7],
        { emptyMem with rvalues := [(("param1", Val.num 7), "$a0")] }) := by
  decide

/-- C3 as amended: the index used is the *first digit* of the result
operand; no digit or digit `0` raises an error (an `AttributeError`,
since the intended format-error references a nonexistent enum member); a
digit above 4 raises an `ErrorException` with code `PARAM_LIMIT` — a code
the taxonomy classifies as non-fatal, though it still aborts since
nothing catches it; a digit `k` in 1–4 moves the argument into the `k`-th
argument register. -/
theorem claim_C3_param_index_amended (mc : MemController) (s : String)
    (n : Int) (cur : Pos) :
    (first_digit s = none →
      emit_param mc (some (.num n)) (some (.str s)) cur =
        .error .attributeError) ∧
    (first_digit s = some 0 →
      emit_param mc (some (.num n)) (some (.str s)) cur =
        .error .attributeError) ∧
    (∀ k, first_digit s = some k → 4 < k →
      emit_param mc (some (.num n)) (some (.str s)) cur =
        .error (.errorException PARAM_LIMIT
          s!"参数寄存器 {s} 超出范围 (当前仅支持至多4个参数传递)" none) ∧
      is_fatal PARAM_LIMIT = false) ∧
    (∀ k, first_digit s = some k → 1 ≤ k → k ≤ 4 →
      emit_param mc (some (.num n)) (some (.str s)) cur =
        .ok ([Instr.li (pararegs.getD (k - 1) "") n],
          { mc with
              rvalues := dict_insert mc.rvalues ("param" ++ toString k, Val.num n) (pararegs.getD (k - 1) "") })) := by
  refine ⟨?_, ?_, ?_, ?_⟩
  · intro h
    unfold emit_param
    dsimp only
    rw [h]
  · intro h
    unfold emit_param
    dsimp only
    rw [h]
    rfl
  · intro k hk h4
    refine ⟨?_, by decide⟩
    unfold emit_param
    dsimp only
    rw [hk]
    dsimp only
    rw [if_neg (by omega), if_pos h4]
  · intro k hk h1 h4
    unfold emit_param
    dsimp only
    rw [hk]
    dsimp only
    rw [if_neg (by omega), if_neg (by omega)]

theorem claim_C3_param_index_amended_witness :
    (first_digit "param_12" = some 1 ∧ 1 ≤ 1 ∧ 1 ≤ 4) ∧
    emit_param emptyMem (some (.num 7)) (some (.str "param_12"))
        ("main", 0, 0) =
      .ok ([Instr.li (pararegs.getD 0 "") 7],
        { emptyMem with
            rvalues := dict_insert emptyMem.rvalues ("param" ++ toString 1, Val.num 7) (pararegs.getD 0 "") }) :=
  ⟨by decide,
    (claim_C3_param_index_amended emptyMem "param_12" 7 ("main", 0, 0)).2.2.2
      1 (by decide) (by decide) (by decide)⟩

/-- Caller frame for the C2 scenario (`main`: no params, no locals,
size 20). -/
def c2CallerFrame : FunctionStackFrame := build_frame "main" [] []

/-- Callee frame for the C2 scenario (`f`: one param, size 24). -/
def c2CalleeFrame : FunctionStackFrame := build_frame "f" [.param "x"] []

def c2Mem : MemController :=
  { rvalues := [], usedregs := ∅, var_use_pos := [],
    function_stack := [c2CallerFrame, c2CalleeFrame] }

/-- Modelled from the claim's words: saves of the still-live caller
locals, a stack-pointer decrement by the *callee's* frame size, save of
the return address, jump-and-link, then restores of the stack pointer,
the return address, and the saved locals, in that order. -/
def spec_call_sequence (mc : MemController) (cur : Pos) (callee : String)
    (callee_frame : FunctionStackFrame) : List Instr :=
  let func_name := cur.1
  let caller_frame := get_frame mc.function_stack func_name
  let live_vars := get_live_vars_after mc cur
  let saves := live_vars.filterMap (fun v =>
    match caller_frame with
    | some fr =>
      (fr.get_var_offset v).map (fun off =>
        Instr.sw ((dict_get mc.rvalues (func_name, .str v)).getD "None")
          off spreg)
    | none => none)
  let restores := live_vars.filterMap (fun v =>
    match caller_frame with
    | some fr =>
      (fr.get_var_offset v).map (fun off =>
        Instr.lw ((dict_get mc.rvalues (func_name, .str v)).getD "None")
          off spreg)
    | none => none)
  saves ++
    [Instr.addi spreg spreg (-(callee_frame.size)),
      Instr.sw rareg (-4) spreg,
      Instr.jal callee,
      Instr.addi spreg spreg callee_frame.size,
      Instr.lw rareg (-4) spreg] ++ restores

/-- C2 counterexample: for `main` (frame size 20) calling `f` (frame
size 24), the emitted sequence decrements `$sp` by the *caller's* size
20 — the claimed decrement by the callee's size 24 appears nowhere — and
differs from the claimed sequence. -/
theorem claim_C2_call_sequence_counterexample :
    c2CalleeFrame.size = 24 ∧
    c2CallerFrame.size = 20 ∧
    emit_call c2Mem (some (.str "f")) ("main", 0, 0) ≠
      spec_call_sequence c2Mem ("main", 0, 0) "f" c2CalleeFrame ∧
    Instr.addi spreg spreg (-24) ∉
      emit_call c2Mem (some (.str "f")) ("main", 0, 0) ∧
    Instr.addi spreg spreg (-20) ∈
      emit_call c2Mem (some (.str "f")) ("main", 0, 0) := by
  decide

/-- C2 as amended: the `call` sequence is, in order: a comment line;
stores of every still-live bound caller variable that has a frame slot;
a store of the old `$sp` and a decrement of `$sp` by the *caller's*
frame size; a store of `$ra`; `jal`; then a reload of `$ra`, an
increment of `$sp` by the caller's frame size, and reloads of the saved
variables — return address before stack pointer on the restore side. -/
theorem claim_C2_call_sequence_amended (mc : MemController) (callee : String)
    (cur : Pos) (fr : FunctionStackFrame)
    (hframe : get_frame mc.function_stack cur.1 = some fr) :
    emit_call mc (some (.str callee)) cur =
      [Instr.comment] ++
      (get_live_vars_after mc cur).filterMap (fun v =>
        (fr.get_var_offset v).map (fun off =>
          Instr.sw ((dict_get mc.rvalues (cur.1, .str v)).getD "None")
            off spreg)) ++
      [Instr.sw spreg (-(fr.size)) spreg,
        Instr.addi spreg spreg (-(fr.size)),
        Instr.sw rareg (-4) spreg,
        Instr.jal callee,
        Instr.lw rareg (-4) spreg,
        Instr.addi spreg spreg fr.size] ++
      (get_live_vars_after mc cur).filterMap (fun v =>
        (fr.get_var_offset v).map (fun off =>
          Instr.lw ((dict_get mc.rvalues (cur.1, .str v)).getD "None")
            off spreg)) := by
  unfold emit_call
  dsimp only
  rw [hframe]
  dsimp only
  simp [py_repr]

theorem claim_C2_call_sequence_amended_witness :
    (get_frame c2Mem.function_stack ("main", 0, 0).1 = some c2CallerFrame) ∧
    emit_call c2Mem (some (.str "f")) ("main", 0, 0) =
      [Instr.comment] ++
      (get_live_vars_after c2Mem ("main", 0, 0)).filterMap (fun v =>
        (c2CallerFrame.get_var_offset v).map (fun off =>
          Instr.sw ((dict_get c2Mem.rvalues (("main", 0, 0).1, .str v)).getD
            "None") off spreg)) ++
      [Instr.sw spreg (-(c2CallerFrame.size)) spreg,
        Instr.addi spreg spreg (-(c2CallerFrame.size)),
        Instr.sw rareg (-4) spreg,
        Instr.jal "f",
        Instr.lw rareg (-4) spreg,
        Instr.addi spreg spreg c2CallerFrame.size] ++
      (get_live_vars_after c2Mem ("main", 0, 0)).filterMap (fun v =>
        (c2CallerFrame.get_var_offset v).map (fun off =>
          Instr.lw ((dict_get c2Mem.rvalues (("main", 0, 0).1, .str v)).getD
            "None") off spreg)) :=
  ⟨by decide,
    claim_C2_call_sequence_amended c2Mem "f" ("main", 0, 0) c2CallerFrame
      (by decide)⟩

/-- Whether an emitter result is the structured `ErrorException` carrying
a machine-readable code, message, and optional fix suggestion. -/
def is_error_exception : Except PyErr (List Instr × MemController) → Bool
  | .error (.errorException _ _ _) => true
  | _ => false

/-- C8 counterexample: constant division by zero raises a plain
`ValueError` — an error without machine-readable code or fix
suggestion — not the structured `ErrorException` the claim describes. -/
theorem claim_C8_div_zero_counterexample :
    emit_div emptyMem (some (.num 1)) (some (.num 0)) (some (.str "t"))
        ("main", 0, 0) =
      .error (.valueError "Division by zero") ∧
    is_error_exception
      (emit_div emptyMem (some (.num 1)) (some (.num 0)) (some (.str "t"))
        ("main", 0, 0)) = false := by
  decide

/-- C8 as amended: a `/` quadruple with two integer-constant operands
and zero divisor makes code generation raise an error immediately (the
emission aborts with an exception, not deferred to runtime), but the
exception is a plain `ValueError` with a human-readable message only —
it carries no machine-readable code and no fix suggestion. -/
theorem claim_C8_div_zero_amended (mc : MemController) (a : Int)
    (res : String) (cur : Pos) (r0 : String × MemController × List Instr)
    (halloc : alloc_reg mc res cur [] = some r0) :
    emit_div mc (some (.num a)) (some (.num 0)) (some (.str res)) cur =
      .error (.valueError "Division by zero") ∧
    is_error_exception
      (emit_div mc (some (.num a)) (some (.num 0)) (some (.str res)) cur) =
      false := by
  have hmain : emit_div mc (some (.num a)) (some (.num 0)) (some (.str res))
      cur = .error (.valueError "Division by zero") := by
    unfold emit_div
    dsimp only
    rw [halloc]
    rfl
  exact ⟨hmain, by rw [hmain]; rfl⟩

theorem claim_C8_div_zero_amended_witness :
    (alloc_reg emptyMem "t" ("main", 0, 0) [] =
      some ("$t0",
        { rvalues := [(("main", Val.str "t"), "$t0")], usedregs := {"$t0"},
          var_use_pos := [], function_stack := [] }, [])) ∧
    (emit_div emptyMem (some (.num 5)) (some (.num 0)) (some (.str "t"))
        ("main", 0, 0) =
      .error (.valueError "Division by zero") ∧
    is_error_exception
      (emit_div emptyMem (some (.num 5)) (some (.num 0)) (some (.str "t"))
        ("main", 0, 0)) = false) :=
  ⟨by decide,
    claim_C8_div_zero_amended emptyMem 5 "t" ("main", 0, 0)
      ("$t0",
        { rvalues := [(("main", Val.str "t"), "$t0")], usedregs := {"$t0"},
          var_use_pos := [], function_stack := [] }, []) (by decide)⟩

/-! ## Call-order resolution (`BlockController._split_all_functions`) -/

/-- Does any quadruple of these blocks call `callee`? -/
def has_call_to (blocks : List (List IQuad)) (callee : String) : Bool :=
  blocks.any (fun b => b.any (fun iq =>
    iq.2.op == "call" && iq.2.arg1 == some (Val.str callee)))

/-- The callers recorded for `callee` in the callee→callers graph:
every known function whose blocks contain a `call` to `callee`, provided
`callee` itself is a known function.  (The Python set's iteration order
is unspecified; here callers appear in function order — the claims below
only meet singleton caller sets.) -/
def callers_of (funcs : List (String × List (List IQuad)))
    (callee : String) : List String :=
  if funcs.any (fun cf => cf.1 == callee) then
    (funcs.filter (fun cf => has_call_to cf.2 callee)).map (fun cf => cf.1)
  else []

/-- The recursive `visit`: mark `f` visited, visit all its callers, then
append `f` to the order.  Fuel stands in for the (visited-set bounded)
recursion; `funcs.length` levels always suffice. -/
def visit_fuel (g : String → List String) :
    Nat → String → List String × List String → List String × List String
  | 0, _, st => st
  | m + 1, f, st =>
    if f ∈ st.1 then st
    else
      let st1 := (g f).foldl (fun acc c => visit_fuel g m c acc)
        (f :: st.1, st.2)
      (st1.1, st1.2 ++ [f])

/-- The topological-order part of `_split_all_functions`: visit `main`
first (when present), then every not-yet-visited function in order. -/
def topo_order (funcs : List (String × List (List IQuad))) : List String :=
  let g := callers_of funcs
  let st0 : List String × List String := ([], [])
  let st1 :=
    if funcs.any (fun cf => cf.1 == "main") then
      visit_fuel g funcs.length "main" st0
    else st0
  let st2 := funcs.foldl (fun st cf =>
    if cf.1 ∈ st.1 then st else visit_fuel g funcs.length cf.1 st) st1
  st2.2

/-- Visiting an already-visited function changes nothing. -/
theorem visit_fuel_visited (g : String → List String) (fuel : Nat)
    (f : String) (st : List String × List String) (h : f ∈ st.1) :
    visit_fuel g fuel f st = st := by
  cases fuel with
  | zero => rfl
  | succ m => rw [visit_fuel, if_pos h]

/-- The C1 scenario: `main` calls `f`; `f` makes no calls. -/
def c1Funcs : List (String × List (List IQuad)) :=
  [("main", [[(0, ⟨"call", some (.str "f"), none, some (.str "$ret_reg")⟩)]]),
    ("f", [[(1, ⟨"RETURN", none, none, none⟩)]])]

/-- C1 counterexample: the resolver outputs `[main, f]`, not the claimed
`[f, main]` — `main` has no callers, so the DFS appends it first. -/
theorem claim_C1_call_order_counterexample :
    topo_order c1Funcs = ["main", "f"] ∧
    topo_order c1Funcs ≠ ["f", "main"] := by
  decide

theorem has_call_to_eq_false (bf : List (List IQuad))
    (hnocall : ∀ b ∈ bf, ∀ iq ∈ b, iq.2.op ≠ "call") (x : String) :
    has_call_to bf x = false := by
  unfold has_call_to
  rw [List.any_eq_false]
  intro b hb
  simp only [Bool.not_eq_true]
  rw [List.any_eq_false]
  intro iq hiq
  simp only [Bool.and_eq_true, beq_iff_eq, not_and]
  intro hop
  exact absurd hop (hnocall b hb iq hiq)

/-- C1 as amended: for a program of exactly two functions `main` and
`f`, where `main` contains a call to `f` and `f` contains no call
quadruples, the resolver outputs `[main, f]`: a function is appended
only after all its callers have been visited, the DFS starts at `main`,
finds it has no unvisited callers, and appends it first, then appends
`f` after its caller `main`. -/
theorem claim_C1_call_order_amended (bm bf : List (List IQuad))
    (funcs : List (String × List (List IQuad)))
    (hfuncs : funcs = [("main", bm), ("f", bf)] ∨
      funcs = [("f", bf), ("main", bm)])
    (hcall : has_call_to bm "f" = true)
    (hnocall : ∀ b ∈ bf, ∀ iq ∈ b, iq.2.op ≠ "call") :
    topo_order funcs = ["main", "f"] := by
  have hbf := has_call_to_eq_false bf hnocall
  rcases hfuncs with rfl | rfl <;>
  · by_cases hb : has_call_to bm "main" = true <;>
      simp [topo_order, callers_of, visit_fuel, hcall, hbf, hb]

theorem claim_C1_call_order_amended_witness :
    ((c1Funcs =
        [("main", [[(0, ⟨"call", some (.str "f"), none,
          some (.str "$ret_reg")⟩)]]),
          ("f", [[(1, ⟨"RETURN", none, none, none⟩)]])] ∨
      c1Funcs =
        [("f", [[(1, ⟨"RETURN", none, none, none⟩)]]),
          ("main", [[(0, ⟨"call", some (.str "f"), none,
            some (.str "$ret_reg")⟩)]])]) ∧
      has_call_to [[(0, ⟨"call", some (.str "f"), none,
        some (.str "$ret_reg")⟩)]] "f" = true ∧
      (∀ b ∈ ([[(1, ⟨"RETURN", none, none, none⟩)]] : List (List IQuad)),
        ∀ iq ∈ b, iq.2.op ≠ "call")) ∧
    topo_order c1Funcs = ["main", "f"] :=
  ⟨⟨Or.inl (by decide), by decide, by decide⟩,
    claim_C1_call_order_amended
      [[(0, ⟨"call", some (.str "f"), none, some (.str "$ret_reg")⟩)]]
      [[(1, ⟨"RETURN", none, none, none⟩)]] c1Funcs (Or.inl (by decide))
      (by decide) (by decide)⟩
